import Mathlib

/-!
Verification of the eod-scheduler schedule generation logic.

Shallow embedding of the Go code in `repositories/schedule_repository.go`
(schedule service part, the deterministic generator) together with the
repository-level data access it relies on.

Modelling conventions:
* Calendar dates are modelled at day granularity as `Int`: the number of days
  since the generator's fixed epoch, Monday 2000-01-03 (so day 0 is the epoch
  and day `d` falls on Go weekday `(d + 1) % 7`, with `time.Weekday` numbering
  Sunday = 0).  `time.Time` values that the service compares and steps with
  `AddDate(0, 0, 1)` are midnight-aligned in this model; `Before` becomes `<`.
* Go's `AddDate(0, 3, 0)` (three calendar months ahead) is embedded through an
  explicit Gregorian civil-calendar conversion equivalent to Go's normalizing
  `time.Date` computation.
* The database is a list of `ScheduleEntry`; SQL queries of the repository
  become list filters.  Collaborator fetches that can fail in Go
  (`GetActiveMembers`, `GetActiveDays`, `GetState`, `GetByDay`) are modelled
  as `Except String` values stored in a `World`; reads of the schedule table
  are modelled as total lookups.
* The observable side effects of a generation run (the repository calls) are
  returned as a trace of `Op` values.
-/

namespace EodScheduler

/-! ## Gregorian calendar arithmetic (Go `time.Date` / `AddDate`) -/

/-- Days since 1970-01-01 of the Gregorian date `(y, m, d)` with `m` already
normalized to `1..12`; `d` may lie outside `1..31`, in which case it extends
linearly, exactly as Go's `time.Date` treats an out-of-range day.
Standard civil-from-days arithmetic, equivalent to Go's conversion. -/
def daysFromCivil (y m d : Int) : Int :=
  let yAdj : Int := if m ≤ 2 then y - 1 else y
  let era : Int := yAdj / 400
  let yoe : Int := yAdj - era * 400
  let mp : Int := if 2 < m then m - 3 else m + 9
  let doy : Int := (153 * mp + 2) / 5 + d - 1
  let doe : Int := yoe * 365 + yoe / 4 - yoe / 100 + doy
  era * 146097 + doe - 719468

/-- Month normalization performed by Go's `time.Date`: fold an arbitrary month
number into a year offset plus a month in `1..12`. -/
def normYearMonth (y m : Int) : Int × Int :=
  (y + (m - 1) / 12, (m - 1) % 12 + 1)

/-- Day number (days since the epoch Monday 2000-01-03) of the possibly
unnormalized Gregorian date `(y, m, d)`, as computed by Go's `time.Date`.
2000-01-03 is 10959 days after 1970-01-01. -/
def dateToDay (y m d : Int) : Int :=
  let ym := normYearMonth y m
  daysFromCivil ym.1 ym.2 d - 10959

/-- Gregorian date `(y, m, d)` of a day number (standard civil-from-days,
inverse of `daysFromCivil` shifted to the 2000-01-03 epoch). -/
def dayToDate (t : Int) : Int × Int × Int :=
  let z : Int := t + 10959 + 719468
  let era : Int := z / 146097
  let doe : Int := z - era * 146097
  let yoe : Int := (doe - doe / 1460 + doe / 36524 - doe / 146096) / 365
  let y : Int := yoe + era * 400
  let doy : Int := doe - (365 * yoe + yoe / 4 - yoe / 100)
  let mp : Int := (5 * doy + 2) / 153
  let d : Int := doy - (153 * mp + 2) / 5 + 1
  let m : Int := mp + (if mp < 10 then 3 else -9)
  (if m ≤ 2 then y + 1 else y, m, d)

/-- Go's `today.AddDate(0, 3, 0)`: same day-of-month three calendar months
later, normalized by `time.Date`. -/
def addMonths3 (t : Int) : Int :=
  let c := dayToDate t
  dateToDay c.1 (c.2.1 + 3) c.2.2

/-- Day number of Go's zero `time.Time` (January 1, year 1): the value the
unset `time.Time` fields of a `GenerationResult` carry. -/
def timeZeroDay : Int := dateToDay 1 1 1

theorem dateToDay_epoch : dateToDay 2000 1 3 = 0 := by decide

theorem addMonths3_epoch : addMonths3 0 = 91 := by decide

/-! ## Data model (`models` package) -/

/-- Model of `models.TeamMember` (fields the generator reads). -/
structure TeamMember where
  id : Int
  name : String
  active : Bool
deriving DecidableEq

/-- Model of `models.WorkingHours`: one record per weekday, `dayOfWeek` numbered
0 = Monday .. 6 = Sunday. -/
structure WorkingHours where
  id : Int
  dayOfWeek : Int
  startTime : String
  endTime : String
  active : Bool
deriving DecidableEq

/-- Model of `models.ScheduleEntry` (fields the generator reads and writes). -/
structure ScheduleEntry where
  id : Int
  date : Int
  teamMemberID : Int
  startTime : String
  endTime : String
  isManualOverride : Bool
  originalTeamMemberID : Option Int
deriving DecidableEq

/-- Model of `models.ScheduleState`. -/
structure ScheduleState where
  id : Int
  lastGenerationDate : Int
deriving DecidableEq

/-- Model of `models.GenerationResult`; the two date fields are day numbers. -/
structure GenerationResult where
  success : Bool
  message : String
  entriesCreated : Nat
  generationDate : Int
  nextGenerationDue : Int
deriving DecidableEq

/-- Model of `models.GetWeekdayNumber`: Go's `time.Weekday` (Sunday = 0) converted to
the application numbering (Monday = 0).  Day `d` of our epoch-based numbering
has Go weekday `(d + 1) % 7` because day 0 (2000-01-03) is a Monday. -/
def getWeekdayNumber (d : Int) : Int :=
  let w : Int := (d + 1) % 7
  if w = 0 then 6 else w - 1

theorem getWeekdayNumber_eq_emod (d : Int) : getWeekdayNumber d = d % 7 := by
  by_cases h : (d + 1) % 7 = 0 <;> simp [getWeekdayNumber, h] <;> omega

/-! ## Repository-level reads (`scheduleRepository`, `workingHoursRepository`) -/

/-- Model of `scheduleRepository.GetByDateRange`: `WHERE date >= from AND date <= to`. -/
def getByDateRange (db : List ScheduleEntry) (lo hi : Int) : List ScheduleEntry :=
  db.filter (fun e => lo ≤ e.date && e.date ≤ hi)

/-- Model of `scheduleRepository.GetByDate`, which is `GetByDateRange date date`. -/
def getByDate (db : List ScheduleEntry) (d : Int) : List ScheduleEntry :=
  getByDateRange db d d

/-- Model of `scheduleRepository.GetByID`: first row with the given id, if any. -/
def getByID (db : List ScheduleEntry) (id : Int) : Option ScheduleEntry :=
  db.find? (fun e => e.id == id)

/-- Model of `workingHoursRepository.GetByDay`: the row for a weekday, or the
`"working hours for day %d not found"` error on no rows. -/
def getByDay (table : List WorkingHours) (dayOfWeek : Int) : Except String WorkingHours :=
  match table.find? (fun wh => wh.dayOfWeek == dayOfWeek) with
  | none => .error ("working hours for day " ++ toString dayOfWeek ++ " not found")
  | some wh => .ok wh

/-! ## Deterministic assignment (`calculateWorkingDaysSinceEpoch`,
`createScheduleEntry`) -/

/-- The `activeWeekdays` set built by `calculateWorkingDaysSinceEpoch`:
Go weekdays `(dayOfWeek + 1) % 7` of the records with `Active` set. -/
def activeGoWeekdays (activeDays : List WorkingHours) : List Int :=
  (activeDays.filter (fun wh => wh.active)).map (fun wh => (wh.dayOfWeek + 1) % 7)

/-- Model of `calculateWorkingDaysSinceEpoch`: 0 for dates before the epoch; otherwise
the number of days `d` in `[epoch, date)` whose Go weekday is in the active
set.  In the day-number model the epoch is 0 and day `k` has Go weekday
`(k + 1) % 7`. -/
def calculateWorkingDaysSinceEpoch (date : Int) (activeDays : List WorkingHours) : Nat :=
  if date < 0 then 0
  else (List.range date.toNat).countP
    (fun (k : Nat) => (activeGoWeekdays activeDays).contains (((k : Int) + 1) % 7))

/-- The `memberIndex` computed by `createScheduleEntry`. -/
def memberIndex (date : Int) (activeMembers : List TeamMember)
    (activeDays : List WorkingHours) : Nat :=
  calculateWorkingDaysSinceEpoch date activeDays % activeMembers.length

/-- Model of `services.WorkingDate`: a date paired with its working hours. -/
structure WorkingDate where
  date : Int
  workingHours : WorkingHours
deriving DecidableEq

/-- Model of `createScheduleEntry`.  Go indexes `activeMembers[memberIndex]`
unconditionally (a division-by-zero panic on an empty slice, which validation
rules out); the embedding carries the non-emptiness fact needed for the
index. -/
def createScheduleEntry (workingDate : WorkingDate) (activeMembers : List TeamMember)
    (activeDays : List WorkingHours) (h : activeMembers ≠ []) : ScheduleEntry :=
  { id := 0
    date := workingDate.date
    teamMemberID :=
      (activeMembers.get
        ⟨memberIndex workingDate.date activeMembers activeDays,
         Nat.mod_lt _ (List.length_pos.mpr h)⟩).id
    startTime := workingDate.workingHours.startTime
    endTime := workingDate.workingHours.endTime
    isManualOverride := false
    originalTeamMemberID := none }

/-! ## Working-date collection (`collectWorkingDates`) -/

/-- Model of `findWorkingHoursForDay`: first record matching the weekday (no `Active`
check here; the callers pass the already-filtered `GetActiveDays` result). -/
def findWorkingHoursForDay (activeDays : List WorkingHours) (weekday : Int) :
    Option WorkingHours :=
  activeDays.find? (fun wh => wh.dayOfWeek == weekday)

/-- Model of `hasManualOverride`: whether any entry for the date has the override flag. -/
def hasManualOverride (db : List ScheduleEntry) (d : Int) : Bool :=
  (getByDate db d).any (fun e => e.isManualOverride)

/-- The date loop of `collectWorkingDates`: starting at `d` with `n` days left
before the horizon end, keep the dates with a working-hours match and no
manual override. -/
def collectLoop (db : List ScheduleEntry) (activeDays : List WorkingHours) :
    Int → Nat → List WorkingDate
  | _, 0 => []
  | d, n + 1 =>
    match findWorkingHoursForDay activeDays (getWeekdayNumber d) with
    | none => collectLoop db activeDays (d + 1) n
    | some wh =>
      if hasManualOverride db d then collectLoop db activeDays (d + 1) n
      else ⟨d, wh⟩ :: collectLoop db activeDays (d + 1) n

/-- The start of the collection horizon: tomorrow when today already has
entries, today otherwise. -/
def collectStart (now : Int) (db : List ScheduleEntry) : Int :=
  if (getByDate db now).length = 0 then now else now + 1

/-- Model of `collectWorkingDates`: scan `[start, today + 3 months)`. -/
def collectWorkingDates (now : Int) (db : List ScheduleEntry)
    (activeDays : List WorkingHours) : List WorkingDate :=
  collectLoop db activeDays (collectStart now db)
    (addMonths3 now - collectStart now db).toNat

/-- The entries a generation run creates (`generateScheduleEntries`): one
`createScheduleEntry` per collected working date, in order. -/
def generatedEntries (activeMembers : List TeamMember) (activeDays : List WorkingHours)
    (h : activeMembers ≠ []) (now : Int) (db : List ScheduleEntry) : List ScheduleEntry :=
  (collectWorkingDates now db activeDays).map
    (fun wd => createScheduleEntry wd activeMembers activeDays h)

/-! ## The generation pipeline (`GenerateSchedule`) with its effect trace -/

/-- One repository call observable from a service run. -/
inductive Op where
  | getActiveMembersOp
  | getActiveDaysOp
  | getStateOp
  | getByDateRangeOp (lo hi : Int)
  | deleteOp (id : Int)
  | createOp (entry : ScheduleEntry)
  | updateStateOp (state : ScheduleState)
deriving DecidableEq

/-- Whether an `Op` mutates the store. -/
def Op.isWrite : Op → Bool
  | .deleteOp _ => true
  | .createOp _ => true
  | .updateStateOp _ => true
  | _ => false

/-- The collaborators and clock a service run sees.  `members`, `days` and
`state` are the (possibly failing) results of `GetActiveMembers`,
`GetActiveDays` and `GetState`; `db` is the schedule-entries table;
`hoursTable` is the working-hours table read by `GetByDay`;
`now` is `timeNow()` as a day number. -/
structure World where
  now : Int
  members : Except String (List TeamMember)
  days : Except String (List WorkingHours)
  state : Except String ScheduleState
  db : List ScheduleEntry
  hoursTable : List WorkingHours

/-- Model of `validateScheduleGeneration`: the error message (if any) and the
collaborator calls made. -/
def validateScheduleGeneration (w : World) : Option String × List Op :=
  match w.members with
  | .error e => (some ("failed to get active team members: " ++ e), [.getActiveMembersOp])
  | .ok activeMembers =>
    if activeMembers.length = 0 then
      (some ("no active team members found. Add team members before generating schedule"),
       [.getActiveMembersOp])
    else
      match w.days with
      | .error e =>
        (some ("failed to get active working days: " ++ e),
         [.getActiveMembersOp, .getActiveDaysOp])
      | .ok activeDays =>
        if activeDays.length = 0 then
          (some ("no active working days found. Configure working hours before generating schedule"),
           [.getActiveMembersOp, .getActiveDaysOp])
        else (none, [.getActiveMembersOp, .getActiveDaysOp])

/-- Model of `isScheduleUpToDate`: fewer than 7 days since the last generation.
(Go truncates `time.Since(last).Hours() / 24` to an integer day count; at day
granularity that is exactly `now - last`.) -/
def isScheduleUpToDate (now : Int) (state : ScheduleState) : Bool :=
  now - state.lastGenerationDate < 7

/-- Model of `createUpToDateResult`. -/
def createUpToDateResult (state : ScheduleState) : GenerationResult :=
  { success := true
    message := "Schedule is up to date"
    entriesCreated := 0
    generationDate := state.lastGenerationDate
    nextGenerationDue := state.lastGenerationDate + 7 }

/-- The entries `cleanupExistingEntries` passes to `Delete`: the non-override
entries fetched from `[tomorrow, today + 3 months]` (both bounds inclusive in
the SQL range query). -/
def cleanupDeletedEntries (now : Int) (db : List ScheduleEntry) : List ScheduleEntry :=
  (getByDateRange db (now + 1) (addMonths3 now)).filter (fun e => !e.isManualOverride)

/-- The repository calls of `cleanupExistingEntries`. -/
def cleanupOps (now : Int) (db : List ScheduleEntry) : List Op :=
  .getByDateRangeOp (now + 1) (addMonths3 now) ::
    (cleanupDeletedEntries now db).map (fun e => .deleteOp e.id)

/-- The schedule table after the cleanup deletes (`Delete` removes the rows
with the deleted ids). -/
def applyCleanup (now : Int) (db : List ScheduleEntry) : List ScheduleEntry :=
  db.filter (fun e => !((cleanupDeletedEntries now db).map ScheduleEntry.id).contains e.id)

/-- The final `GenerationResult` built by `finalizeGeneration`. -/
def finalizeResult (now : Int) (entriesCreated : Nat) : GenerationResult :=
  { success := true
    message := "Successfully generated schedule with " ++ toString entriesCreated ++ " entries"
    entriesCreated := entriesCreated
    generationDate := now
    nextGenerationDue := now + 7 }

/-- A `GenerationResult` whose only set fields are `Success` and `Message`
(the validation-failure return); the remaining fields keep Go zero values. -/
def failureResult (msg : String) : GenerationResult :=
  { success := false
    message := msg
    entriesCreated := 0
    generationDate := timeZeroDay
    nextGenerationDue := timeZeroDay }

/-- Model of `GenerateSchedule`: validation, state load, freshness gate, data load,
cleanup, entry generation and state finalization, returning the Go
`(result, error)` pair as `Except` plus the trace of repository calls.
Writes to the schedule table (`Create`, `Delete`, `UpdateState`) are
infallible in the model, so the corresponding Go error paths do not appear. -/
def generateSchedule (force : Bool) (w : World) : Except String GenerationResult × List Op :=
  match validateScheduleGeneration w with
  | (some msg, ops) => (.ok (failureResult msg), ops)
  | (none, ops0) =>
    match w.state with
    | .error e => (.error ("failed to get schedule state: " ++ e), ops0 ++ [.getStateOp])
    | .ok state =>
      if !force && isScheduleUpToDate w.now state then
        (.ok (createUpToDateResult state), ops0 ++ [.getStateOp])
      else
        match w.members, w.days with
        | .error e, _ =>
          (.error ("failed to get active team members: " ++ e),
           ops0 ++ [.getStateOp, .getActiveMembersOp])
        | .ok _, .error e =>
          (.error ("failed to get active working days: " ++ e),
           ops0 ++ [.getStateOp, .getActiveMembersOp, .getActiveDaysOp])
        | .ok activeMembers, .ok activeDays =>
          let dataOps : List Op := [.getStateOp, .getActiveMembersOp, .getActiveDaysOp]
          let cOps := cleanupOps w.now w.db
          let db2 := applyCleanup w.now w.db
          if h : activeMembers = [] then
            -- Unreachable after validation: Go would panic on `% 0` in
            -- `createScheduleEntry`.
            (.error ("panic: integer divide by zero"), ops0 ++ dataOps ++ cOps)
          else
            let entries := generatedEntries activeMembers activeDays h w.now db2
            let newState : ScheduleState := { state with lastGenerationDate := w.now }
            (.ok (finalizeResult w.now entries.length),
             ops0 ++ dataOps ++ cOps ++ entries.map Op.createOp ++ [.updateStateOp newState])

/-! ## Manual-override removal (`RemoveManualOverride`) -/

/-- The weekday conversion inlined in `RemoveManualOverride`: Go
`int(entry.Date.Weekday())`, then Sunday (0) becomes 6, otherwise decrement. -/
def removeOverrideWeekday (d : Int) : Int :=
  let w : Int := (d + 1) % 7
  if w = 0 then 6 else w - 1

/-- Model of `RemoveManualOverride`: validate the id, load the entry, require it to be
an override with a stored original member, delete it, look up the weekday's
working hours, and recreate the plain auto entry from the stored original
member.  Returns the Go error (if any) and the trace of mutating calls. -/
def removeManualOverride (id : Int) (w : World) : Except String Unit × List Op :=
  if id ≤ 0 then (.error ("invalid schedule entry ID: " ++ toString id), [])
  else
    match getByID w.db id with
    | none => (.error ("schedule entry not found"), [])
    | some entry =>
      if !entry.isManualOverride then (.error ("can only remove manual overrides"), [])
      else
        match entry.originalTeamMemberID with
        | none => (.error ("missing original team member ID"), [])
        | some originalID =>
          match getByDay w.hoursTable (removeOverrideWeekday entry.date) with
          | .error e => (.error ("failed to get working hours: " ++ e), [.deleteOp id])
          | .ok workingHours =>
            let restoredEntry : ScheduleEntry :=
              { id := 0
                date := entry.date
                teamMemberID := originalID
                startTime := workingHours.startTime
                endTime := workingHours.endTime
                isManualOverride := false
                originalTeamMemberID := none }
            (.ok (), [.deleteOp id, .createOp restoredEntry])

/-! ## Specification-side definitions and shared fixtures -/

/-- Spec-side restatement of the working-day count: the number of days from
the epoch (inclusive) to the date (exclusive) whose weekday (0 = Monday
numbering) is an active working day; 0 for dates before the epoch. -/
def specWorkingDaysCount (date : Int) (activeDays : List WorkingHours) : Nat :=
  if date < 0 then 0
  else (List.range date.toNat).countP
    (fun (k : Nat) => activeDays.any (fun wh => wh.active && wh.dayOfWeek == (k : Int) % 7))

/-- The code's per-day predicate and the spec's agree when the configured
weekday numbers are in range `0..6`. -/
theorem calc_eq_specCount (date : Int) (activeDays : List WorkingHours)
    (h7 : ∀ wh ∈ activeDays, 0 ≤ wh.dayOfWeek ∧ wh.dayOfWeek < 7) :
    calculateWorkingDaysSinceEpoch date activeDays = specWorkingDaysCount date activeDays := by
  unfold calculateWorkingDaysSinceEpoch specWorkingDaysCount
  split
  · rfl
  · refine List.countP_congr ?_
    intro k _
    simp only [List.contains_iff_exists_mem_beq, activeGoWeekdays, List.mem_map,
      List.mem_filter, List.any_eq_true, beq_iff_eq, Bool.and_eq_true]
    constructor
    · rintro ⟨x, ⟨wh, ⟨hmem, hact⟩, rfl⟩, hbeq⟩
      refine ⟨wh, hmem, hact, ?_⟩
      have := h7 wh hmem
      omega
    · rintro ⟨wh, hmem, hact, hday⟩
      refine ⟨(wh.dayOfWeek + 1) % 7, ⟨wh, ⟨hmem, hact⟩, rfl⟩, ?_⟩
      have := h7 wh hmem
      omega

/-- Fixtures used by the concrete witnesses and counterexamples below:
three members, Monday and Wednesday active (the scenario of the service's
own deterministic-assignment test). -/
def fixAlice : TeamMember := ⟨1, "Alice", true⟩

def fixBob : TeamMember := ⟨2, "Bob", true⟩

def fixCharlie : TeamMember := ⟨3, "Charlie", true⟩

def fixMembers3 : List TeamMember := [fixAlice, fixBob, fixCharlie]

def fixMonday : WorkingHours := ⟨1, 0, "09:00", "17:00", true⟩

def fixWednesday : WorkingHours := ⟨2, 2, "09:00", "17:00", true⟩

def fixDaysMW : List WorkingHours := [fixMonday, fixWednesday]

theorem fixMembers3_ne_nil : fixMembers3 ≠ [] := by decide

/-! ## C1: the assigned member is `activeMembers[count mod len]` -/

/-- C1: for every working date on or after the epoch, the generated entry's
assigned member is `activeMembers[workingDaysSinceEpoch % len(activeMembers)]`
where `workingDaysSinceEpoch` counts the days from the epoch (inclusive) to
the date (exclusive) falling on an active weekday, and for any date before
the epoch the count is 0.  (Weekday numbers are in `0..6` as the
`working_hours` table stores them.) -/
theorem entry_assignment_spec (wd : WorkingDate) (activeMembers : List TeamMember)
    (activeDays : List WorkingHours) (h : activeMembers ≠ [])
    (h7 : ∀ wh ∈ activeDays, 0 ≤ wh.dayOfWeek ∧ wh.dayOfWeek < 7) :
    (0 ≤ wd.date →
      (createScheduleEntry wd activeMembers activeDays h).teamMemberID =
        (activeMembers.get
          ⟨specWorkingDaysCount wd.date activeDays % activeMembers.length,
           Nat.mod_lt _ (List.length_pos.mpr h)⟩).id) ∧
    (∀ d : Int, d < 0 → calculateWorkingDaysSinceEpoch d activeDays = 0) := by
  constructor
  · intro _
    have hidx : memberIndex wd.date activeMembers activeDays =
        specWorkingDaysCount wd.date activeDays % activeMembers.length := by
      unfold memberIndex
      rw [calc_eq_specCount wd.date activeDays h7]
    simp only [createScheduleEntry, hidx]
  · intro d hd
    unfold calculateWorkingDaysSinceEpoch
    rw [if_pos hd]

/-- Witness for C1 at date 2 (Wednesday 2000-01-05) with the three-member,
Monday/Wednesday fixture. -/
theorem entry_assignment_spec_witness :
    (0 ≤ (⟨2, fixWednesday⟩ : WorkingDate).date →
      (createScheduleEntry ⟨2, fixWednesday⟩ fixMembers3 fixDaysMW fixMembers3_ne_nil).teamMemberID =
        (fixMembers3.get
          ⟨specWorkingDaysCount (⟨2, fixWednesday⟩ : WorkingDate).date fixDaysMW % fixMembers3.length,
           Nat.mod_lt _ (List.length_pos.mpr fixMembers3_ne_nil)⟩).id) ∧
    (∀ d : Int, d < 0 → calculateWorkingDaysSinceEpoch d fixDaysMW = 0) :=
  entry_assignment_spec ⟨2, fixWednesday⟩ fixMembers3 fixDaysMW fixMembers3_ne_nil (by decide)

/-! ## C10: the member index is always in bounds -/

/-- C10: with a non-empty active-member list the modulo in
`createScheduleEntry` is never by zero and the computed `memberIndex` is a
valid index into `activeMembers`. -/
theorem member_index_in_bounds (date : Int) (activeMembers : List TeamMember)
    (activeDays : List WorkingHours) (h : activeMembers ≠ []) :
    activeMembers.length ≠ 0 ∧
      memberIndex date activeMembers activeDays < activeMembers.length :=
  ⟨fun hl => h (List.length_eq_zero.mp hl), Nat.mod_lt _ (List.length_pos.mpr h)⟩

/-- Witness for C10 on the three-member fixture. -/
theorem member_index_in_bounds_witness :
    fixMembers3.length ≠ 0 ∧
      memberIndex 9 fixMembers3 fixDaysMW < fixMembers3.length :=
  member_index_in_bounds 9 fixMembers3 fixDaysMW fixMembers3_ne_nil

/-! ## C3: cleanup deletes exactly the non-override window entries -/

/-- C3: in the cleanup window `[tomorrow, today + 3 months]`, every
non-override entry is passed to `Delete` and no override entry ever is.
(`cleanupDeletedEntries` is the list of entries the cleanup loop passes to
`Delete`.) -/
theorem cleanup_preserves_overrides (now : Int) (db : List ScheduleEntry) :
    ∀ e ∈ getByDateRange db (now + 1) (addMonths3 now),
      (e.isManualOverride = false → e ∈ cleanupDeletedEntries now db) ∧
      (e.isManualOverride = true → e ∉ cleanupDeletedEntries now db) := by
  intro e he
  constructor
  · intro hov
    unfold cleanupDeletedEntries
    rw [List.mem_filter]
    exact ⟨he, by simp [hov]⟩
  · intro hov hmem
    unfold cleanupDeletedEntries at hmem
    rw [List.mem_filter] at hmem
    simp [hov] at hmem

/-- Witness for C3: a non-override entry on day 5 with a run from day 0. -/
theorem cleanup_preserves_overrides_witness :
    ((⟨3, 5, 1, "09:00", "17:00", false, none⟩ : ScheduleEntry).isManualOverride = false →
      (⟨3, 5, 1, "09:00", "17:00", false, none⟩ : ScheduleEntry) ∈
        cleanupDeletedEntries 0 [⟨3, 5, 1, "09:00", "17:00", false, none⟩]) ∧
    ((⟨3, 5, 1, "09:00", "17:00", false, none⟩ : ScheduleEntry).isManualOverride = true →
      (⟨3, 5, 1, "09:00", "17:00", false, none⟩ : ScheduleEntry) ∉
        cleanupDeletedEntries 0 [⟨3, 5, 1, "09:00", "17:00", false, none⟩]) :=
  cleanup_preserves_overrides 0 [⟨3, 5, 1, "09:00", "17:00", false, none⟩]
    ⟨3, 5, 1, "09:00", "17:00", false, none⟩ (by decide)

/-! ## C4: the freshness gate performs no writes -/

/-- When validation passes, its call trace is the two precondition fetches. -/
theorem validate_none_ops (w : World) (hval : (validateScheduleGeneration w).1 = none) :
    validateScheduleGeneration w = (none, [.getActiveMembersOp, .getActiveDaysOp]) := by
  rcases hm : w.members with e | ms
  · simp [validateScheduleGeneration, hm] at hval
  · by_cases hlen : ms.length = 0
    · simp [validateScheduleGeneration, hm, hlen] at hval
    · rcases hd : w.days with e | ds
      · simp [validateScheduleGeneration, hm, hd, hlen] at hval
      · by_cases hdlen : ds.length = 0
        · simp [validateScheduleGeneration, hm, hd, hlen, hdlen] at hval
        · simp [validateScheduleGeneration, hm, hd, hlen, hdlen]

/-- C4: with the last generation fewer than 7 days ago and `force = false`
(and the precondition validation passing, which `generate` checks first),
the run performs zero writes and returns success with message
"Schedule is up to date", `generationDate = lastGenerationDate` and
`nextGenerationDue = lastGenerationDate + 7 days`. -/
theorem freshness_gate_no_writes (w : World) (st : ScheduleState)
    (hval : (validateScheduleGeneration w).1 = none)
    (hstate : w.state = .ok st)
    (hfresh : w.now - st.lastGenerationDate < 7) :
    generateSchedule false w =
      (.ok { success := true, message := "Schedule is up to date", entriesCreated := 0,
             generationDate := st.lastGenerationDate,
             nextGenerationDue := st.lastGenerationDate + 7 },
       [.getActiveMembersOp, .getActiveDaysOp, .getStateOp]) ∧
    (generateSchedule false w).2.filter Op.isWrite = [] := by
  have hgate : isScheduleUpToDate w.now st = true := by
    simp [isScheduleUpToDate]
    omega
  have heq : generateSchedule false w =
      (.ok (createUpToDateResult st), [.getActiveMembersOp, .getActiveDaysOp, .getStateOp]) := by
    simp [generateSchedule, validate_none_ops w hval, hstate, hgate]
  refine ⟨?_, ?_⟩
  · rw [heq]; rfl
  · rw [heq]; rfl

/-- Witness for C4: a world three days after the last generation. -/
theorem freshness_gate_no_writes_witness :
    generateSchedule false
        ⟨10, .ok fixMembers3, .ok fixDaysMW, .ok ⟨1, 7⟩, [], []⟩ =
      (.ok { success := true, message := "Schedule is up to date", entriesCreated := 0,
             generationDate := 7, nextGenerationDue := 7 + 7 },
       [.getActiveMembersOp, .getActiveDaysOp, .getStateOp]) ∧
    (generateSchedule false
        ⟨10, .ok fixMembers3, .ok fixDaysMW, .ok ⟨1, 7⟩, [], []⟩).2.filter Op.isWrite = [] :=
  freshness_gate_no_writes ⟨10, .ok fixMembers3, .ok fixDaysMW, .ok ⟨1, 7⟩, [], []⟩
    ⟨1, 7⟩ (by decide) rfl (by decide)

/-! ## C5: business validation failures are non-error results -/

/-- A string contains another when it splits around it. -/
def ContainsSubstr (s pat : String) : Prop :=
  ∃ pre post, s = pre ++ pat ++ post

/-- C5: zero active members, zero active working days, or a failing fetch of
either, each make `generate` return a non-error result with `success = false`
and the documented message; in the zero-members case no state or date-range
call occurs. -/
theorem validation_failures_are_results (force : Bool) (w : World) :
    (∀ ms, w.members = .ok ms → ms.length = 0 →
      generateSchedule force w =
          (.ok (failureResult
            ("no active team members found. Add team members before generating schedule")),
           [.getActiveMembersOp]) ∧
        (failureResult
            ("no active team members found. Add team members before generating schedule")).success
          = false ∧
        ContainsSubstr
          (failureResult
            ("no active team members found. Add team members before generating schedule")).message
          ("no active team members found") ∧
        Op.getStateOp ∉ (generateSchedule force w).2 ∧
        (∀ lo hi, Op.getByDateRangeOp lo hi ∉ (generateSchedule force w).2)) ∧
    (∀ ms ds, w.members = .ok ms → ms.length ≠ 0 → w.days = .ok ds → ds.length = 0 →
      generateSchedule force w =
          (.ok (failureResult
            ("no active working days found. Configure working hours before generating schedule")),
           [.getActiveMembersOp, .getActiveDaysOp]) ∧
        ContainsSubstr
          (failureResult
            ("no active working days found. Configure working hours before generating schedule")).message
          ("no active working days found")) ∧
    (∀ e, w.members = .error e →
      ∃ r, generateSchedule force w = (.ok r, [.getActiveMembersOp]) ∧ r.success = false) ∧
    (∀ ms e, w.members = .ok ms → ms.length ≠ 0 → w.days = .error e →
      ∃ r, generateSchedule force w =
        (.ok r, [.getActiveMembersOp, .getActiveDaysOp]) ∧ r.success = false) := by
  refine ⟨?_, ?_, ?_, ?_⟩
  · intro ms hm hlen
    have hv : validateScheduleGeneration w =
        (some ("no active team members found. Add team members before generating schedule"),
         [.getActiveMembersOp]) := by
      simp [validateScheduleGeneration, hm, hlen]
    have hg : generateSchedule force w =
        (.ok (failureResult
          ("no active team members found. Add team members before generating schedule")),
         [.getActiveMembersOp]) := by
      simp [generateSchedule, hv]
    refine ⟨hg, rfl, ⟨"", ". Add team members before generating schedule", rfl⟩, ?_, ?_⟩
    · rw [hg]; simp
    · intro lo hi; rw [hg]; simp
  · intro ms ds hm hlen hd hdlen
    have hv : validateScheduleGeneration w =
        (some ("no active working days found. Configure working hours before generating schedule"),
         [.getActiveMembersOp, .getActiveDaysOp]) := by
      simp [validateScheduleGeneration, hm, hlen, hd, hdlen]
    refine ⟨?_, ⟨"", ". Configure working hours before generating schedule", rfl⟩⟩
    simp [generateSchedule, hv]
  · intro e hm
    have hv : validateScheduleGeneration w =
        (some ("failed to get active team members: " ++ e), [.getActiveMembersOp]) := by
      simp [validateScheduleGeneration, hm]
    exact ⟨failureResult ("failed to get active team members: " ++ e),
      by simp [generateSchedule, hv], rfl⟩
  · intro ms e hm hlen hd
    have hv : validateScheduleGeneration w =
        (some ("failed to get active working days: " ++ e),
         [.getActiveMembersOp, .getActiveDaysOp]) := by
      simp [validateScheduleGeneration, hm, hlen, hd]
    exact ⟨failureResult ("failed to get active working days: " ++ e),
      by simp [generateSchedule, hv], rfl⟩

/-- Witness for C5: the zero-members branch on a concrete world. -/
theorem validation_failures_are_results_witness :
    generateSchedule true ⟨0, .ok [], .ok fixDaysMW, .ok ⟨1, 0⟩, [], []⟩ =
        (.ok (failureResult
          ("no active team members found. Add team members before generating schedule")),
         [.getActiveMembersOp]) ∧
      (failureResult
          ("no active team members found. Add team members before generating schedule")).success
        = false ∧
      ContainsSubstr
        (failureResult
          ("no active team members found. Add team members before generating schedule")).message
        ("no active team members found") ∧
      Op.getStateOp ∉ (generateSchedule true ⟨0, .ok [], .ok fixDaysMW, .ok ⟨1, 0⟩, [], []⟩).2 ∧
      (∀ lo hi, Op.getByDateRangeOp lo hi ∉
        (generateSchedule true ⟨0, .ok [], .ok fixDaysMW, .ok ⟨1, 0⟩, [], []⟩).2) :=
  (validation_failures_are_results true ⟨0, .ok [], .ok fixDaysMW, .ok ⟨1, 0⟩, [], []⟩).1
    [] rfl rfl

/-! ## C8: removing an override restores the stored original assignment -/

/-- C8: on an override entry with a stored original member,
`RemoveManualOverride` deletes the entry and creates a plain entry on the
same date assigned to the stored `originalTeamMemberID` (no re-run of the
assignment function), with times from the weekday's working hours. -/
theorem remove_override_restores_original (id : Int) (w : World) (entry : ScheduleEntry)
    (originalID : Int) (workingHours : WorkingHours)
    (hid : 0 < id) (hget : getByID w.db id = some entry)
    (hov : entry.isManualOverride = true)
    (horig : entry.originalTeamMemberID = some originalID)
    (hwh : getByDay w.hoursTable (removeOverrideWeekday entry.date) = .ok workingHours) :
    removeManualOverride id w =
      (.ok (), [.deleteOp id, .createOp
        { id := 0, date := entry.date, teamMemberID := originalID,
          startTime := workingHours.startTime, endTime := workingHours.endTime,
          isManualOverride := false, originalTeamMemberID := none }]) := by
  have hnot : ¬id ≤ 0 := by omega
  simp [removeManualOverride, hnot, hget, hov, horig, hwh]

/-- Witness for C8: an override on day 5 storing original member 4. -/
theorem remove_override_restores_original_witness :
    removeManualOverride 7
        ⟨0, .ok [], .ok [], .ok ⟨1, 0⟩,
         [⟨7, 5, 9, "10:00", "18:00", true, some 4⟩],
         [⟨6, 5, "09:00", "17:00", true⟩]⟩ =
      (.ok (), [.deleteOp 7, .createOp
        { id := 0, date := 5, teamMemberID := 4,
          startTime := "09:00", endTime := "17:00",
          isManualOverride := false, originalTeamMemberID := none }]) :=
  remove_override_restores_original 7
    ⟨0, .ok [], .ok [], .ok ⟨1, 0⟩,
     [⟨7, 5, 9, "10:00", "18:00", true, some 4⟩],
     [⟨6, 5, "09:00", "17:00", true⟩]⟩
    ⟨7, 5, 9, "10:00", "18:00", true, some 4⟩ 4 ⟨6, 5, "09:00", "17:00", true⟩
    (by decide) (by decide) rfl rfl rfl

/-! ## C9: invalid override-removal requests change nothing -/

/-- C9: a non-positive id, a non-override entry, or an override without a
stored original member make `RemoveManualOverride` return an error with no
`Delete` and no `Create` call. -/
theorem remove_override_error_paths (id : Int) (w : World)
    (hbad : id ≤ 0 ∨
      (∃ entry, getByID w.db id = some entry ∧ entry.isManualOverride = false) ∨
      (∃ entry, getByID w.db id = some entry ∧ entry.isManualOverride = true ∧
        entry.originalTeamMemberID = none)) :
    (∃ msg, (removeManualOverride id w).1 = .error msg) ∧
      (removeManualOverride id w).2 = [] := by
  by_cases hle : id ≤ 0
  · constructor
    · exact ⟨"invalid schedule entry ID: " ++ toString id, by simp [removeManualOverride, hle]⟩
    · simp [removeManualOverride, hle]
  · rcases hbad with h | ⟨entry, hget, hov⟩ | ⟨entry, hget, hov, horig⟩
    · exact absurd h hle
    · constructor
      · exact ⟨"can only remove manual overrides", by simp [removeManualOverride, hle, hget, hov]⟩
      · simp [removeManualOverride, hle, hget, hov]
    · constructor
      · exact ⟨"missing original team member ID",
          by simp [removeManualOverride, hle, hget, hov, horig]⟩
      · simp [removeManualOverride, hle, hget, hov, horig]

/-- Witness for C9: removing a non-override entry fails without writes. -/
theorem remove_override_error_paths_witness :
    (∃ msg, (removeManualOverride 3
        ⟨0, .ok [], .ok [], .ok ⟨1, 0⟩,
         [⟨3, 5, 9, "10:00", "18:00", false, none⟩], []⟩).1 = .error msg) ∧
      (removeManualOverride 3
        ⟨0, .ok [], .ok [], .ok ⟨1, 0⟩,
         [⟨3, 5, 9, "10:00", "18:00", false, none⟩], []⟩).2 = [] :=
  remove_override_error_paths 3
    ⟨0, .ok [], .ok [], .ok ⟨1, 0⟩, [⟨3, 5, 9, "10:00", "18:00", false, none⟩], []⟩
    (Or.inr (Or.inl ⟨⟨3, 5, 9, "10:00", "18:00", false, none⟩, rfl, rfl⟩))

/-! ## C2: the collected working dates are exactly the eligible window dates -/

/-- Membership in the collection loop: exactly the dates of `[d0, d0 + n)`
with a working-hours match and no manual override. -/
theorem collectLoop_mem (db : List ScheduleEntry) (days : List WorkingHours) :
    ∀ (n : Nat) (d0 dd : Int) (ww : WorkingHours),
      (⟨dd, ww⟩ : WorkingDate) ∈ collectLoop db days d0 n ↔
        (d0 ≤ dd ∧ dd < d0 + n ∧
          findWorkingHoursForDay days (getWeekdayNumber dd) = some ww ∧
          hasManualOverride db dd = false) := by
  intro n
  induction n with
  | zero =>
    intro d0 dd ww
    simp only [collectLoop, List.not_mem_nil, false_iff, not_and]
    intro h1 h2
    omega
  | succ n ih =>
    intro d0 dd ww
    rcases hfw : findWorkingHoursForDay days (getWeekdayNumber d0) with _ | wh
    · rw [show collectLoop db days d0 (n + 1) = collectLoop db days (d0 + 1) n by
        simp [collectLoop, hfw]]
      rw [ih (d0 + 1) dd ww]
      constructor
      · rintro ⟨h1, h2, h3, h4⟩
        exact ⟨by omega, by omega, h3, h4⟩
      · rintro ⟨h1, h2, h3, h4⟩
        refine ⟨?_, by omega, h3, h4⟩
        rcases eq_or_lt_of_le h1 with heq | hlt
        · exfalso
          rw [← heq] at h3
          rw [hfw] at h3
          exact Option.noConfusion h3
        · omega
    · by_cases hov : hasManualOverride db d0 = true
      · rw [show collectLoop db days d0 (n + 1) = collectLoop db days (d0 + 1) n by
          simp [collectLoop, hfw, hov]]
        rw [ih (d0 + 1) dd ww]
        constructor
        · rintro ⟨h1, h2, h3, h4⟩
          exact ⟨by omega, by omega, h3, h4⟩
        · rintro ⟨h1, h2, h3, h4⟩
          refine ⟨?_, by omega, h3, h4⟩
          rcases eq_or_lt_of_le h1 with heq | hlt
          · exfalso
            rw [← heq] at h4
            rw [h4] at hov
            exact Bool.noConfusion hov
          · omega
      · rw [show collectLoop db days d0 (n + 1) =
            ⟨d0, wh⟩ :: collectLoop db days (d0 + 1) n by
          simp [collectLoop, hfw, hov]]
        rw [List.mem_cons, ih (d0 + 1) dd ww]
        simp only [WorkingDate.mk.injEq]
        constructor
        · rintro (⟨rfl, rfl⟩ | ⟨h1, h2, h3, h4⟩)
          · refine ⟨le_refl _, by omega, hfw, ?_⟩
            simp [Bool.not_eq_true] at hov
            exact hov
          · exact ⟨by omega, by omega, h3, h4⟩
        · rintro ⟨h1, h2, h3, h4⟩
          rcases eq_or_lt_of_le h1 with heq | hlt
          · left
            rw [← heq] at h3
            rw [hfw] at h3
            injection h3 with h3
            exact ⟨heq.symm, h3.symm⟩
          · right
            exact ⟨by omega, by omega, h3, h4⟩

/-- The collection loop emits dates in strictly increasing order. -/
theorem collectLoop_chain (db : List ScheduleEntry) (days : List WorkingHours) :
    ∀ (n : Nat) (d0 : Int),
      List.Chain' (fun a b => a.date < b.date) (collectLoop db days d0 n) := by
  intro n
  induction n with
  | zero =>
    intro d0
    simp [collectLoop]
  | succ n ih =>
    intro d0
    rcases hfw : findWorkingHoursForDay days (getWeekdayNumber d0) with _ | wh
    · rw [show collectLoop db days d0 (n + 1) = collectLoop db days (d0 + 1) n by
        simp [collectLoop, hfw]]
      exact ih (d0 + 1)
    · by_cases hov : hasManualOverride db d0
      · rw [show collectLoop db days d0 (n + 1) = collectLoop db days (d0 + 1) n by
          simp [collectLoop, hfw, hov]]
        exact ih (d0 + 1)
      · rw [show collectLoop db days d0 (n + 1) =
            ⟨d0, wh⟩ :: collectLoop db days (d0 + 1) n by
          simp [collectLoop, hfw, hov]]
        rw [List.chain'_cons']
        refine ⟨?_, ih (d0 + 1)⟩
        intro y hy
        have hmem := List.mem_of_mem_head? hy
        have hchar := (collectLoop_mem db days n (d0 + 1) y.date y.workingHours).mp hmem
        show d0 < y.date
        omega

/-- C2: the horizon starts tomorrow when today already has an entry and today
otherwise, ends exclusively at today plus three calendar months, and the
collected output holds exactly the dates in the window whose weekday matches
an active working-hours record and which carry no manual override, paired
with the matched record, in chronological order.  (The hypothesis reflects
that `GetActiveDays` only returns `active = 1` rows.) -/
theorem collect_window_exact (now : Int) (db : List ScheduleEntry)
    (activeDays : List WorkingHours)
    (hAct : ∀ wh ∈ activeDays, wh.active = true) :
    (collectStart now db = if getByDate db now = [] then now else now + 1) ∧
    (∀ (dd : Int) (ww : WorkingHours),
      (⟨dd, ww⟩ : WorkingDate) ∈ collectWorkingDates now db activeDays ↔
      (collectStart now db ≤ dd ∧ dd < addMonths3 now ∧
        findWorkingHoursForDay activeDays (getWeekdayNumber dd) = some ww ∧
        ww.active = true ∧
        (∀ e ∈ getByDate db dd, e.isManualOverride = false))) ∧
    List.Chain' (fun a b => a.date < b.date) (collectWorkingDates now db activeDays) := by
  refine ⟨?_, ?_, collectLoop_chain db activeDays _ _⟩
  · by_cases hc : getByDate db now = [] <;>
      simp [collectStart, hc, List.length_eq_zero]
  · intro dd ww
    rw [collectWorkingDates, collectLoop_mem]
    constructor
    · rintro ⟨h1, h2, h3, h4⟩
      refine ⟨h1, by omega, h3, ?_, ?_⟩
      · exact hAct ww (List.mem_of_find?_eq_some h3)
      · intro e he
        rw [hasManualOverride, List.any_eq_false] at h4
        have := h4 e he
        simp at this
        exact this
    · rintro ⟨h1, h2, h3, _, h5⟩
      refine ⟨h1, by omega, h3, ?_⟩
      rw [hasManualOverride, List.any_eq_false]
      intro e he
      simp [h5 e he]

/-- Witness for C2: today (day 0) already has an entry, Monday/Wednesday
active. -/
theorem collect_window_exact_witness :
    (collectStart 0 [⟨1, 0, 1, "09:00", "17:00", false, none⟩] =
      if getByDate [⟨1, 0, 1, "09:00", "17:00", false, none⟩] 0 = [] then 0 else 0 + 1) ∧
    (∀ (dd : Int) (ww : WorkingHours),
      (⟨dd, ww⟩ : WorkingDate) ∈
          collectWorkingDates 0 [⟨1, 0, 1, "09:00", "17:00", false, none⟩] fixDaysMW ↔
      (collectStart 0 [⟨1, 0, 1, "09:00", "17:00", false, none⟩] ≤ dd ∧
        dd < addMonths3 0 ∧
        findWorkingHoursForDay fixDaysMW (getWeekdayNumber dd) = some ww ∧
        ww.active = true ∧
        (∀ e ∈ getByDate [⟨1, 0, 1, "09:00", "17:00", false, none⟩] dd,
          e.isManualOverride = false))) ∧
    List.Chain' (fun a b => a.date < b.date)
      (collectWorkingDates 0 [⟨1, 0, 1, "09:00", "17:00", false, none⟩] fixDaysMW) :=
  collect_window_exact 0 [⟨1, 0, 1, "09:00", "17:00", false, none⟩] fixDaysMW (by decide)

/-! ## C7: assignments do not depend on the invocation time -/

/-- C7: two forced runs from different current times (and different stored
schedules) with the same members and working days assign the same member to
any date both runs emit: the assignment is a pure function of the date, the
member list and the working-day set. -/
theorem assignment_time_invariant (activeMembers : List TeamMember)
    (activeDays : List WorkingHours) (h : activeMembers ≠ [])
    (now1 now2 : Int) (db1 db2 : List ScheduleEntry) (e1 e2 : ScheduleEntry)
    (h1 : e1 ∈ generatedEntries activeMembers activeDays h now1 db1)
    (h2 : e2 ∈ generatedEntries activeMembers activeDays h now2 db2)
    (hdate : e1.date = e2.date) :
    e1.teamMemberID = e2.teamMemberID := by
  rcases List.mem_map.mp h1 with ⟨wd1, _, rfl⟩
  rcases List.mem_map.mp h2 with ⟨wd2, _, rfl⟩
  have hd : wd1.date = wd2.date := hdate
  simp only [createScheduleEntry, hd]

/-- Witness for C7: the Wednesday entry emitted both by a Monday-started run
and by a Tuesday-started run of the Monday/Wednesday fixture. -/
theorem assignment_time_invariant_witness :
    (createScheduleEntry ⟨2, fixWednesday⟩ fixMembers3 fixDaysMW
        fixMembers3_ne_nil).teamMemberID =
      (createScheduleEntry ⟨2, fixWednesday⟩ fixMembers3 fixDaysMW
        fixMembers3_ne_nil).teamMemberID :=
  assignment_time_invariant fixMembers3 fixDaysMW fixMembers3_ne_nil 0 1 [] []
    (createScheduleEntry ⟨2, fixWednesday⟩ fixMembers3 fixDaysMW fixMembers3_ne_nil)
    (createScheduleEntry ⟨2, fixWednesday⟩ fixMembers3 fixDaysMW fixMembers3_ne_nil)
    (by decide) (by decide) rfl

/-! ## C6: consecutive working dates and repeated assignments -/

/-- Counterexample fixtures for C6: two members, Monday/Wednesday/Friday
active, and a pre-existing manual override on Wednesday (day 2). -/
def fixMembers2 : List TeamMember := [fixAlice, fixBob]

def fixFriday : WorkingHours := ⟨3, 4, "09:00", "17:00", true⟩

def fixDaysMWF : List WorkingHours := [fixMonday, fixWednesday, fixFriday]

def fixOverrideWednesday : List ScheduleEntry :=
  [⟨1, 2, 1, "09:00", "17:00", true, some 1⟩]

theorem fixMembers2_ne_nil : fixMembers2 ≠ [] := by decide

/-- C6 counterexample: in a run over two members (ids 1 and 2) and three
distinct active weekdays, with a manual override on the intervening
Wednesday, the first two consecutive generated working dates (Monday day 0
and Friday day 4) are both assigned member 1. -/
theorem consecutive_assignment_counterexample :
    1 < fixMembers2.length ∧
    (∃ wh1 ∈ fixDaysMWF, ∃ wh2 ∈ fixDaysMWF, wh1.dayOfWeek ≠ wh2.dayOfWeek) ∧
    ((generatedEntries fixMembers2 fixDaysMWF fixMembers2_ne_nil 0
        fixOverrideWednesday).take 2).map (fun e => (e.date, e.teamMemberID)) =
      [(0, 1), (4, 1)] := by
  refine ⟨by decide, ⟨fixMonday, by decide, fixWednesday, by decide, by decide⟩, ?_⟩
  decide

/-- The function `hasManualOverride` is everywhere false over a store without overrides. -/
theorem hasManualOverride_false (db : List ScheduleEntry)
    (hov : ∀ e ∈ db, e.isManualOverride = false) (d : Int) :
    hasManualOverride db d = false := by
  rw [hasManualOverride, List.any_eq_false]
  intro e he
  have := hov e (List.mem_of_mem_filter he)
  simp [this]

/-- One-day recurrence of the working-day count. -/
theorem calc_succ (activeDays : List WorkingHours) (d : Int) (h : 0 ≤ d) :
    calculateWorkingDaysSinceEpoch (d + 1) activeDays =
      calculateWorkingDaysSinceEpoch d activeDays +
        (if (activeGoWeekdays activeDays).contains ((d + 1) % 7) then 1 else 0) := by
  have h1 : (d + 1).toNat = d.toNat + 1 := by omega
  unfold calculateWorkingDaysSinceEpoch
  rw [if_neg (by omega), if_neg (by omega), h1, List.range_succ, List.countP_append]
  have h2 : ((d.toNat : Int) + 1) = d + 1 := by omega
  simp [List.countP_cons, h2]
  have h3 : d ⊔ 0 = d := by omega
  rw [h3]

/-- Under all-active, in-range weekday records, the count's per-day predicate
coincides with the collector's working-day test. -/
theorem workingPred_bridge (activeDays : List WorkingHours)
    (hAct : ∀ wh ∈ activeDays, wh.active = true)
    (h7 : ∀ wh ∈ activeDays, 0 ≤ wh.dayOfWeek ∧ wh.dayOfWeek < 7) (d : Int) :
    (activeGoWeekdays activeDays).contains ((d + 1) % 7) =
      (findWorkingHoursForDay activeDays (getWeekdayNumber d)).isSome := by
  have hbool : ∀ (a b : Bool), (a = true ↔ b = true) → a = b := by decide
  apply hbool
  rw [List.contains_iff_exists_mem_beq, findWorkingHoursForDay, List.find?_isSome]
  constructor
  · rintro ⟨x, hx, hbeq⟩
    rw [activeGoWeekdays, List.mem_map] at hx
    rcases hx with ⟨wh, hwh, rfl⟩
    have hmem := List.mem_of_mem_filter hwh
    have hb := h7 wh hmem
    rw [beq_iff_eq] at hbeq
    refine ⟨wh, hmem, ?_⟩
    rw [beq_iff_eq, getWeekdayNumber_eq_emod]
    omega
  · rintro ⟨wh, hmem, hbeq⟩
    rw [beq_iff_eq, getWeekdayNumber_eq_emod] at hbeq
    have hb := h7 wh hmem
    refine ⟨(wh.dayOfWeek + 1) % 7, ?_, ?_⟩
    · rw [activeGoWeekdays, List.mem_map]
      exact ⟨wh, List.mem_filter.mpr ⟨hmem, by simp [hAct wh hmem]⟩, rfl⟩
    · rw [beq_iff_eq]
      omega

/-- Crossing one working day followed by a gap of non-working days advances
the count by exactly one. -/
theorem calc_step (activeDays : List WorkingHours)
    (hAct : ∀ wh ∈ activeDays, wh.active = true)
    (h7 : ∀ wh ∈ activeDays, 0 ≤ wh.dayOfWeek ∧ wh.dayOfWeek < 7) :
    ∀ (g : Nat) (a : Int), 0 ≤ a →
      (findWorkingHoursForDay activeDays (getWeekdayNumber a)).isSome = true →
      (∀ c : Int, a < c → c < a + 1 + g →
        (findWorkingHoursForDay activeDays (getWeekdayNumber c)).isSome = false) →
      calculateWorkingDaysSinceEpoch (a + 1 + g) activeDays =
        calculateWorkingDaysSinceEpoch a activeDays + 1 := by
  intro g
  induction g with
  | zero =>
    intro a ha hwork _
    have := calc_succ activeDays a ha
    rw [workingPred_bridge activeDays hAct h7 a, hwork] at this
    simpa using this
  | succ g ih =>
    intro a ha hwork hgap
    have hstep : a + 1 + ((g + 1 : Nat) : Int) = (a + 1 + (g : Int)) + 1 := by
      push_cast
      ring
    rw [hstep, calc_succ activeDays (a + 1 + g) (by omega),
      workingPred_bridge activeDays hAct h7 (a + 1 + g),
      hgap (a + 1 + g) (by omega) (by omega)]
    simpa using ih a ha hwork (fun c hc1 hc2 => hgap c hc1 (by omega))

/-- The head of the collection loop over an override-free store is the first
working day at or after the loop start. -/
theorem collectLoop_head (db : List ScheduleEntry) (days : List WorkingHours)
    (hov : ∀ e ∈ db, e.isManualOverride = false) :
    ∀ (n : Nat) (d0 : Int) (x : WorkingDate) (rest : List WorkingDate),
      collectLoop db days d0 n = x :: rest →
      d0 ≤ x.date ∧
        (findWorkingHoursForDay days (getWeekdayNumber x.date)).isSome = true ∧
        (∀ c : Int, d0 ≤ c → c < x.date →
          (findWorkingHoursForDay days (getWeekdayNumber c)).isSome = false) := by
  intro n
  induction n with
  | zero =>
    intro d0 x rest hl
    exact absurd hl (by simp [collectLoop])
  | succ n ih =>
    intro d0 x rest hl
    rcases hfw : findWorkingHoursForDay days (getWeekdayNumber d0) with _ | wh
    · rw [show collectLoop db days d0 (n + 1) = collectLoop db days (d0 + 1) n by
        simp [collectLoop, hfw]] at hl
      obtain ⟨h1, h2, h3⟩ := ih (d0 + 1) x rest hl
      refine ⟨by omega, h2, ?_⟩
      intro c hc1 hc2
      rcases eq_or_lt_of_le hc1 with heq | hlt
      · rw [← heq, hfw]
        rfl
      · exact h3 c (by omega) hc2
    · rw [show collectLoop db days d0 (n + 1) =
          ⟨d0, wh⟩ :: collectLoop db days (d0 + 1) n by
        simp [collectLoop, hfw, hasManualOverride_false db hov d0]] at hl
      injection hl with hx _
      rw [← hx]
      refine ⟨le_refl _, by rw [hfw]; rfl, ?_⟩
      intro c hc1 hc2
      exfalso
      have : (d0 : Int) ≤ c ∧ c < d0 := ⟨hc1, hc2⟩
      omega

/-- The tail of a non-empty collection-loop run is itself a collection-loop
run starting the day after the head. -/
theorem collectLoop_tail (db : List ScheduleEntry) (days : List WorkingHours)
    (hov : ∀ e ∈ db, e.isManualOverride = false) :
    ∀ (n : Nat) (d0 : Int) (x : WorkingDate) (rest : List WorkingDate),
      collectLoop db days d0 n = x :: rest →
      ∃ m : Nat, m < n ∧ rest = collectLoop db days (x.date + 1) m := by
  intro n
  induction n with
  | zero =>
    intro d0 x rest hl
    exact absurd hl (by simp [collectLoop])
  | succ n ih =>
    intro d0 x rest hl
    rcases hfw : findWorkingHoursForDay days (getWeekdayNumber d0) with _ | wh
    · rw [show collectLoop db days d0 (n + 1) = collectLoop db days (d0 + 1) n by
        simp [collectLoop, hfw]] at hl
      obtain ⟨m, hm, hrest⟩ := ih (d0 + 1) x rest hl
      exact ⟨m, by omega, hrest⟩
    · rw [show collectLoop db days d0 (n + 1) =
          ⟨d0, wh⟩ :: collectLoop db days (d0 + 1) n by
        simp [collectLoop, hfw, hasManualOverride_false db hov d0]] at hl
      injection hl with hx hrest
      refine ⟨n, by omega, ?_⟩
      rw [← hx]
      exact hrest.symm

/-- Along an override-free collection run started on or after the epoch, the
working-day count of each emitted date is one more than its predecessor's. -/
theorem collectLoop_calc_chain (db : List ScheduleEntry) (days : List WorkingHours)
    (hAct : ∀ wh ∈ days, wh.active = true)
    (h7 : ∀ wh ∈ days, 0 ≤ wh.dayOfWeek ∧ wh.dayOfWeek < 7)
    (hov : ∀ e ∈ db, e.isManualOverride = false) :
    ∀ (n : Nat) (d0 : Int), 0 ≤ d0 →
      List.Chain'
        (fun x y => calculateWorkingDaysSinceEpoch y.date days =
          calculateWorkingDaysSinceEpoch x.date days + 1)
        (collectLoop db days d0 n) := by
  intro n
  induction n using Nat.strong_induction_on with
  | _ n ih =>
    intro d0 hd0
    rcases hl : collectLoop db days d0 n with _ | ⟨x, rest⟩
    · exact List.chain'_nil
    · obtain ⟨hx1, hx2, _⟩ := collectLoop_head db days hov n d0 x rest hl
      obtain ⟨m, hm, hrest⟩ := collectLoop_tail db days hov n d0 x rest hl
      rw [List.chain'_cons']
      constructor
      · intro y hy
        have hymem := List.mem_of_mem_head? hy
        rw [hrest] at hymem
        have hychar :=
          (collectLoop_mem db days m (x.date + 1) y.date y.workingHours).mp hymem
        rcases hyl : collectLoop db days (x.date + 1) m with _ | ⟨y', rest'⟩
        · rw [hrest, hyl] at hy
          exact absurd hy (by simp)
        · have hhead := collectLoop_head db days hov m (x.date + 1) y' rest' hyl
          have hyy : y' = y := by
            rw [hrest, hyl] at hy
            simpa using hy
          rw [← hyy]
          obtain ⟨hh1, hh2, hh3⟩ := hhead
          have hgap : y'.date = x.date + 1 + (y'.date - x.date - 1).toNat := by omega
          rw [hgap]
          exact calc_step days hAct h7 (y'.date - x.date - 1).toNat x.date (by omega) hx2
            (fun c hc1 hc2 => hh3 c (by omega) (by omega))
      · rw [hrest]
        exact ih m hm (x.date + 1) (by omega)

/-- Successive values differ modulo any modulus of at least two. -/
theorem succ_mod_ne (k n : Nat) (h : 2 ≤ n) : (k + 1) % n ≠ k % n := by
  intro heq
  rw [Nat.add_mod, Nat.mod_eq_of_lt (show (1 : Nat) < n by omega)] at heq
  have hr : k % n < n := Nat.mod_lt _ (by omega)
  rcases Nat.lt_or_ge (k % n + 1) n with hlt | hge
  · rw [Nat.mod_eq_of_lt hlt] at heq
    omega
  · have hn : k % n + 1 = n := by omega
    rw [hn, Nat.mod_self] at heq
    omega

/-- Distinct positions of a list with pairwise-distinct member ids carry
distinct ids. -/
theorem id_get_ne (l : List TeamMember) (hnodup : (l.map TeamMember.id).Nodup)
    (i j : Nat) (hi : i < l.length) (hj : j < l.length) (hne : i ≠ j) :
    (l.get ⟨i, hi⟩).id ≠ (l.get ⟨j, hj⟩).id := by
  intro he
  have hil : i < (l.map TeamMember.id).length := by simpa using hi
  have hjl : j < (l.map TeamMember.id).length := by simpa using hj
  have hmap : (l.map TeamMember.id).get ⟨i, hil⟩ = (l.map TeamMember.id).get ⟨j, hjl⟩ := by
    simpa using he
  have := hnodup.get_inj_iff.mp hmap
  exact hne (congrArg Fin.val this)

/-- C6 (amended): when the run's horizon starts on or after the epoch, no
date in the store carries a manual override, the member ids are pairwise
distinct and there is more than one member (with at least two distinct
active weekdays, as in the claim), no two consecutive generated working
dates are assigned the same member id. -/
theorem no_consecutive_repeat_without_overrides (activeMembers : List TeamMember)
    (activeDays : List WorkingHours) (h : activeMembers ≠ []) (now : Int)
    (db : List ScheduleEntry)
    (hlen : 1 < activeMembers.length)
    (hnodup : (activeMembers.map TeamMember.id).Nodup)
    (hAct : ∀ wh ∈ activeDays, wh.active = true)
    (h7 : ∀ wh ∈ activeDays, 0 ≤ wh.dayOfWeek ∧ wh.dayOfWeek < 7)
    (hov : ∀ e ∈ db, e.isManualOverride = false)
    (hnow : 0 ≤ now)
    (_hdistinct : ∃ wh1 ∈ activeDays, ∃ wh2 ∈ activeDays, wh1.dayOfWeek ≠ wh2.dayOfWeek) :
    List.Chain' (fun a b => a.teamMemberID ≠ b.teamMemberID)
      (generatedEntries activeMembers activeDays h now db) := by
  rw [generatedEntries, List.chain'_map]
  have hstart : 0 ≤ collectStart now db := by
    unfold collectStart
    split <;> omega
  refine List.Chain'.imp ?_
    (collectLoop_calc_chain db activeDays hAct h7 hov _ (collectStart now db) hstart)
  intro a b hcalc
  show (createScheduleEntry a activeMembers activeDays h).teamMemberID ≠
    (createScheduleEntry b activeMembers activeDays h).teamMemberID
  simp only [createScheduleEntry]
  have hib : memberIndex b.date activeMembers activeDays ≠
      memberIndex a.date activeMembers activeDays := by
    unfold memberIndex
    rw [hcalc]
    exact succ_mod_ne (calculateWorkingDaysSinceEpoch a.date activeDays)
      activeMembers.length (by omega)
  exact id_get_ne activeMembers hnodup
    (memberIndex a.date activeMembers activeDays)
    (memberIndex b.date activeMembers activeDays)
    (Nat.mod_lt _ (List.length_pos.mpr h))
    (Nat.mod_lt _ (List.length_pos.mpr h))
    (Ne.symm hib)

/-- Witness for the amended C6: the override-free Monday/Wednesday/Friday
run with two members. -/
theorem no_consecutive_repeat_without_overrides_witness :
    List.Chain' (fun a b => a.teamMemberID ≠ b.teamMemberID)
      (generatedEntries fixMembers2 fixDaysMWF fixMembers2_ne_nil 0 []) :=
  no_consecutive_repeat_without_overrides fixMembers2 fixDaysMWF fixMembers2_ne_nil 0 []
    (by decide) (by decide) (by decide) (by decide) (by decide) (by decide)
    ⟨fixMonday, by decide, fixWednesday, by decide, by decide⟩

end EodScheduler
